import Mathlib

/-!
Verification of the PV-RCNN forward pipeline (`pvrcnn/model.py`).

Floating-point tensors are modelled over `ℚ`; tensors indexed along a
keypoint or channel axis become lists (outer index = keypoint, inner list =
channels, matching the channel-major layout after the source's transposes).
External collaborators (spconv `VoxelGenerator`, `SparseCNN`, the PointNet
set-abstraction modules, `RoiGridPool`) appear as parameters with the
interface the source uses, except where a claim is decided by a component
whose code is outside the provided sources; those are modelled from the
spec and marked as such in their doc comments.
-/

namespace PVRCNN

/-- A raw input point: xyz coordinates plus one auxiliary scalar channel
(source points have shape (N, 4)). -/
structure Point4 where
  x : ℚ
  y : ℚ
  z : ℚ
  w : ℚ
deriving DecidableEq, Repr

instance : Inhabited Point4 := ⟨⟨0, 0, 0, 0⟩⟩

/-- A 3-vector (keypoint xyz, voxel offset, base voxel size). -/
structure Point3 where
  x : ℚ
  y : ℚ
  z : ℚ
deriving DecidableEq, Repr

instance : Inhabited Point3 := ⟨⟨0, 0, 0⟩⟩

/-! ## BEV_FeatureGatherer -/

/-- The clamp step of `BEV_FeatureGatherer.normalize_grid_sample_indices`:
`indices = torch.min(torch.clamp(indices, 0), image_dims)` with
`image_dims = [H - 1, W - 1]`; the index pair's first component is the
x fractional index and the second the y fractional index. -/
def clampBevIndices (idx : ℚ × ℚ) (H W : ℕ) : ℚ × ℚ :=
  (min (max idx.1 0) ((H : ℚ) - 1), min (max idx.2 0) ((W : ℚ) - 1))

/-- `BEV_FeatureGatherer.normalize_grid_sample_indices`: clamp, then
`indices = 2 * (indices / (image_dims - 1)) - 1`. -/
def normalizeGridSampleIndices (idx : ℚ × ℚ) (H W : ℕ) : ℚ × ℚ :=
  let c := clampBevIndices idx H W
  (2 * (c.1 / ((H : ℚ) - 1 - 1)) - 1, 2 * (c.2 / ((W : ℚ) - 1 - 1)) - 1)

/-- The fractional-index computation of
`BEV_FeatureGatherer.compute_bev_indices` before normalization:
`(keypoint_xyz[..., :2] - voxel_offset[:2]) / (base_voxel_size[:2] * strides[-1])`. -/
def bevFractionalIndices (kp : Point3) (offset baseVoxelSize : Point3)
    (strides : List ℚ) : ℚ × ℚ :=
  ((kp.x - offset.x) / (baseVoxelSize.x * strides.getLastD 0),
   (kp.y - offset.y) / (baseVoxelSize.y * strides.getLastD 0))

/-- `BEV_FeatureGatherer.compute_bev_indices`: fractional indices followed by
`normalize_grid_sample_indices`. -/
def computeBevIndices (kp : Point3) (H W : ℕ) (offset baseVoxelSize : Point3)
    (strides : List ℚ) : ℚ × ℚ :=
  normalizeGridSampleIndices (bevFractionalIndices kp offset baseVoxelSize strides) H W

/-- The spec's index formula, stated from its words:
`idx_xy = (keypoint.xy - voxel_offset.xy) / (base_voxel_size.xy * stride_at_final_scale)`. -/
def specIdxXY (kp : Point3) (offset baseVoxelSize : Point3) (finalStride : ℚ) : ℚ × ℚ :=
  ((kp.x - offset.x) / (baseVoxelSize.x * finalStride),
   (kp.y - offset.y) / (baseVoxelSize.y * finalStride))

/-! ## Dense volume flattening and bilinear sampling -/

/-- The final dense backbone volume, shape (1, C, D, H, W) with unit batch. -/
structure DenseVolume where
  C : ℕ
  D : ℕ
  H : ℕ
  W : ℕ
  data : Fin C → Fin D → Fin H → Fin W → ℚ

/-- `volume.view(N, C * D, H, W)`: row-major flattening of the (C, D) axes,
flat channel `ch` reads `data[ch / D][ch % D]`. -/
def flattenVolume (v : DenseVolume) (ch : Fin (v.C * v.D)) (h : Fin v.H)
    (w : Fin v.W) : ℚ :=
  if hD : 0 < v.D then
    v.data ⟨ch.1 / v.D, (Nat.div_lt_iff_lt_mul hD).mpr ch.2⟩
      ⟨ch.1 % v.D, Nat.mod_lt _ hD⟩ h w
  else
    absurd ch.2 (by simp [Nat.eq_zero_of_not_pos hD])

/-- Read a pixel with zero padding for out-of-range integer indices
(`F.grid_sample` default `padding_mode="zeros"`). -/
def samplePixel {H W : ℕ} (m : Fin H → Fin W → ℚ) (iy ix : ℤ) : ℚ :=
  if hy : 0 ≤ iy ∧ iy < (H : ℤ) then
    if hx : 0 ≤ ix ∧ ix < (W : ℤ) then
      m ⟨iy.toNat, by omega⟩ ⟨ix.toNat, by omega⟩
    else 0
  else 0

/-- Bilinear sampling of one channel map at a normalized grid coordinate
(`F.grid_sample` with default `align_corners=False`): unnormalize
`x = ((xn + 1) * W - 1) / 2`, then interpolate the four surrounding pixels. -/
def gridSampleBilinear {H W : ℕ} (m : Fin H → Fin W → ℚ) (xn yn : ℚ) : ℚ :=
  let x : ℚ := ((xn + 1) * (W : ℚ) - 1) / 2
  let y : ℚ := ((yn + 1) * (H : ℚ) - 1) / 2
  let x0 : ℤ := ⌊x⌋
  let y0 : ℤ := ⌊y⌋
  let wx : ℚ := x - (x0 : ℚ)
  let wy : ℚ := y - (y0 : ℚ)
  (1 - wy) * (1 - wx) * samplePixel m y0 x0 +
  (1 - wy) * wx * samplePixel m y0 (x0 + 1) +
  wy * (1 - wx) * samplePixel m (y0 + 1) x0 +
  wy * wx * samplePixel m (y0 + 1) (x0 + 1)

/-- `BEV_FeatureGatherer.forward`: flatten the volume to (C·D, H, W), compute
normalized indices per keypoint, bilinearly sample every flat channel.
One channel list (length C·D) per keypoint. -/
def bevGathererForward (v : DenseVolume) (ks : List Point3)
    (offset baseVoxelSize : Point3) (strides : List ℚ) : List (List ℚ) :=
  ks.map (fun kp =>
    let idx := computeBevIndices kp v.H v.W offset baseVoxelSize strides
    (List.finRange (v.C * v.D)).map (fun ch =>
      gridSampleBilinear (flattenVolume v ch) idx.1 idx.2))

/-! ## Voxel generator grid shape and coordinate padding -/

/-- `PV_RCNN.build_voxel_generator`'s grid shape:
`grid_shape = np.r_[voxel_generator.grid_size[::-1]] + [1, 0, 0]`,
where `grid_size` is the generator's (X, Y, Z) size list. -/
def buildVoxelGeneratorGridShape (gridSize : List ℕ) : List ℕ :=
  List.zipWith (· + ·) gridSize.reverse [1, 0, 0]

/-- The coordinate padding in `PV_RCNN.voxelize`:
`np.pad(coordinates, ((0, 0), (1, 0)), constant_values=0)` prepends a zero
batch column to each (Z, Y, X) coordinate row. -/
def voxelizeCoordinates (coords : List (List ℤ)) : List (List ℤ) :=
  coords.map (fun row => 0 :: row)

/-! ## Keypoint sampling -/

/-- Squared xyz distance between two raw points. -/
def sqDist (p q : Point4) : ℚ :=
  (p.x - q.x) ^ 2 + (p.y - q.y) ^ 2 + (p.z - q.z) ^ 2

/-- Minimum squared distance from point `i` to the already-selected set,
as a running minimum started from the sampler's large initial distance. -/
def minSqDist (pts : List Point4) (sel : List ℕ) (i : ℕ) : ℚ :=
  (sel.map (fun j => sqDist (pts.getD i default) (pts.getD j default))).foldr
    min (10 ^ 10)

/-- First index attaining the maximal score in a candidate list. -/
def argmaxBy (f : ℕ → ℚ) : List ℕ → Option ℕ
  | [] => none
  | i :: is => some (is.foldl (fun best j => if f best < f j then j else best) i)

/-- Modelled from the spec: one greedy step of farthest-point sampling —
"iteratively pick the point maximizing minimum distance to the
already-selected set".  When no unselected candidate remains (more samples
requested than points, which the spec leaves undefined upstream), the
external `furthest_point_sample` op pads by repeating points; modelled here
by appending index 0. -/
def fpsStep (pts : List Point4) (sel : List ℕ) : List ℕ :=
  match argmaxBy (minSqDist pts sel)
      ((List.range pts.length).filter (fun i => decide (i ∉ sel))) with
  | some c => sel ++ [c]
  | none => sel ++ [0]

/-- `n` further greedy selection steps. -/
def fpsAux (pts : List Point4) : ℕ → List ℕ → List ℕ
  | 0, sel => sel
  | n + 1, sel => fpsAux pts n (fpsStep pts sel)

/-- Modelled from the spec: `furthest_point_sample` (external `pointnet2`
CUDA op, not part of the provided sources) — greedy farthest-point sampling
"starting from an arbitrary (e.g. first) point", returning `K` point
indices. -/
def furthestPointSample (pts : List Point4) (K : ℕ) : List ℕ :=
  match K with
  | 0 => []
  | k + 1 => fpsAux pts k [0]

/-- `PV_RCNN.sample_keypoints`: FPS indices into the raw cloud, then
`points[:, indices, :3]` — the auxiliary channel is dropped. -/
def sampleKeypoints (pts : List Point4) (K : ℕ) : List Point3 :=
  (furthestPointSample pts K).map (fun i =>
    let p := pts.getD i default
    ⟨p.x, p.y, p.z⟩)

/-! ## Multi-scale fusion and forward pass -/

/-- Per-scale input to a PointNet module: centers and per-point channel
lists (the source's channel-major transposes only re-layout this data). -/
def ScaleData : Type := List Point3 × List (List ℚ)

/-- `torch.split(points, [3, 1], dim=-1)`: the raw points become the
synthetic stride-1 scale, xyz coordinates split from the scalar feature
channel. -/
def splitRawPoints (pts : List Point4) : ScaleData :=
  (pts.map (fun p => ⟨p.x, p.y, p.z⟩), pts.map (fun p => [p.w]))

/-- `PV_RCNN.pnet_forward`: `zip(cnn_out, self.pnets)` pairs the scale
inputs with the PointNet modules in order; each module (external) returns
one channel list per keypoint. -/
def pnetForward (pnets : List (ScaleData → List (List ℚ)))
    (cnnOut : List ScaleData) : List (List (List ℚ)) :=
  List.zipWith (fun s p => p s) cnnOut pnets

/-- `torch.cat(pnet_out + [bev_out], dim=1)`: per keypoint, concatenate the
channel lists of the per-scale tables in order, BEV channels last. -/
def fuseFeatures (tables : List (List (List ℚ))) (bev : List (List ℚ)) :
    List (List ℚ) :=
  tables.foldr (fun t acc => List.zipWith (· ++ ·) t acc) bev

/-- `PV_RCNN.forward` up to feature fusion: prepend the split raw points as
scale 0 to the backbone's per-scale outputs, sample keypoints, run the
PointNet modules, gather BEV features and concatenate. -/
def forwardFused (pts : List Point4) (cnnOut : List ScaleData)
    (pnets : List (ScaleData → List (List ℚ))) (v : DenseVolume)
    (offset baseVoxelSize : Point3) (strides : List ℚ) (K : ℕ) :
    List (List ℚ) :=
  let scales := splitRawPoints pts :: cnnOut
  let ks := sampleKeypoints pts K
  fuseFeatures (pnetForward pnets scales)
    (bevGathererForward v ks offset baseVoxelSize strides)

/-- The proposal construction in `PV_RCNN.forward`:
`Boxes3D(20 * torch.rand((25, 7)))`, with `u` standing for the random draw
returned by `torch.rand` (entries in `[0, 1)`). -/
def proposalsDraw (u : Fin 25 → Fin 7 → ℚ) : List (List ℚ) :=
  (List.finRange 25).map (fun i => (List.finRange 7).map (fun j => 20 * u i j))

/-- The tail of `PV_RCNN.forward`: the returned pooled features are
`roi_grid_pool` (external) applied to the internally drawn random
proposals, the keypoints and the fused descriptors — no proposal argument
is accepted from the caller. -/
def forwardPooled {O : Type}
    (pool : List (List ℚ) → List Point3 → List (List ℚ) → O)
    (pts : List Point4) (cnnOut : List ScaleData)
    (pnets : List (ScaleData → List (List ℚ))) (v : DenseVolume)
    (offset baseVoxelSize : Point3) (strides : List ℚ) (K : ℕ)
    (u : Fin 25 → Fin 7 → ℚ) : O :=
  pool (proposalsDraw u) (sampleKeypoints pts K)
    (forwardFused pts cnnOut pnets v offset baseVoxelSize strides K)

end PVRCNN

namespace PVRCNN

/-! ## Claim theorems: BEV indexing (C1, C2, C7), grid shape (C6), padding (C8) -/

/-- C1: the spec claims the normalization maps `idx = 0` to exactly `-1` and
`idx = dim - 1` to exactly `+1`.  The code divides the clamped index by
`image_dims - 1 = dim - 2` instead of `dim - 1`; with `H = W = 4` the
maximal index 3 is mapped to `2`, not `+1` (while `idx = 0 → -1` does hold),
contradicting the function's own docstring that the result is normalized on
`(-1, +1)`. -/
theorem bev_normalization_off_by_one :
    normalizeGridSampleIndices (3, 3) 4 4 = (2, 2) ∧
    normalizeGridSampleIndices (3, 3) 4 4 ≠ (1, 1) ∧
    normalizeGridSampleIndices (0, 0) 4 4 = (-1, -1) := by
  refine ⟨?_, ?_, ?_⟩ <;>
    norm_num [normalizeGridSampleIndices, clampBevIndices, min_def, max_def, Prod.ext_iff]

/-- C2 counterexample: the claim says the x index is clamped into
`[0, W - 1]`.  With `H = 5`, `W = 3` the x fractional index 4 is clamped
against `H - 1 = 4`, so it stays `4 > W - 1 = 2`: the code clamps the x
component with the height bound, not the width bound. -/
theorem bev_clamp_x_exceeds_width_bound :
    (clampBevIndices (4, 0) 5 3).1 = 4 ∧
    ¬ (clampBevIndices (4, 0) 5 3).1 ≤ (3 : ℚ) - 1 := by
  refine ⟨?_, ?_⟩ <;> norm_num [clampBevIndices, min_def, max_def]

/-- C2 amended: the clamp bounds are swapped per axis — the x index is
clamped into `[0, H - 1]` and the y index into `[0, W - 1]` (equal to the
claimed bounds only when `H = W`); every input produces a value in that box,
never an error. -/
theorem bev_clamp_swapped_bounds (idx : ℚ × ℚ) (H W : ℕ)
    (hH : 1 ≤ H) (hW : 1 ≤ W) :
    0 ≤ (clampBevIndices idx H W).1 ∧ (clampBevIndices idx H W).1 ≤ (H : ℚ) - 1 ∧
    0 ≤ (clampBevIndices idx H W).2 ∧ (clampBevIndices idx H W).2 ≤ (W : ℚ) - 1 := by
  have hH' : (1 : ℚ) ≤ (H : ℚ) := by exact_mod_cast hH
  have hW' : (1 : ℚ) ≤ (W : ℚ) := by exact_mod_cast hW
  refine ⟨?_, ?_, ?_, ?_⟩
  · exact le_min (le_max_right _ _) (by linarith)
  · exact min_le_right _ _
  · exact le_min (le_max_right _ _) (by linarith)
  · exact min_le_right _ _

/-- Witness for C2's amended theorem at `idx = (4, 0)`, `H = 5`, `W = 3`. -/
theorem bev_clamp_swapped_bounds_witness :
    (1 ≤ 5 ∧ 1 ≤ 3) ∧
    (0 ≤ (clampBevIndices (4, 0) 5 3).1 ∧
     (clampBevIndices (4, 0) 5 3).1 ≤ (5 : ℚ) - 1 ∧
     0 ≤ (clampBevIndices (4, 0) 5 3).2 ∧
     (clampBevIndices (4, 0) 5 3).2 ≤ (3 : ℚ) - 1) :=
  ⟨⟨by decide, by decide⟩,
   bev_clamp_swapped_bounds (4, 0) 5 3 (by decide) (by decide)⟩

/-- C6: the grid shape handed to the sparse backbone is the generator's
(X, Y, Z) grid size reversed to (Z, Y, X) with exactly one extra slot in the
Z dimension and Y, X unchanged. -/
theorem grid_shape_reversed_padded (X Y Z : ℕ) :
    buildVoxelGeneratorGridShape [X, Y, Z] = [Z + 1, Y, X] := rfl

/-- C7: the fractional BEV index computed before clamping equals
`(keypoint.xy - voxel_offset.xy) / (base_voxel_size.xy * stride_at_final_scale)`,
the final stride being the last entry of `cfg.strides`; the full
`compute_bev_indices` is that formula followed by the normalization step. -/
theorem compute_bev_indices_formula (kp : Point3) (H W : ℕ)
    (offset baseVoxelSize : Point3) (strides : List ℚ) :
    bevFractionalIndices kp offset baseVoxelSize strides =
      specIdxXY kp offset baseVoxelSize (strides.getLastD 0) ∧
    computeBevIndices kp H W offset baseVoxelSize strides =
      normalizeGridSampleIndices
        (specIdxXY kp offset baseVoxelSize (strides.getLastD 0)) H W :=
  ⟨rfl, rfl⟩

/-- C8: every coordinate row passed to the backbone is the generator's
(Z, Y, X) triple with a constant 0 batch index prepended: the padded table
has the same row count, rows of length 4 whose first entry is 0, and
dropping the first column recovers the generator's rows. -/
theorem voxelize_coordinates_padded (coords : List (List ℤ))
    (h : ∀ row ∈ coords, row.length = 3) :
    (voxelizeCoordinates coords).length = coords.length ∧
    (∀ row ∈ voxelizeCoordinates coords, row.length = 4 ∧ row.headD 1 = 0) ∧
    (voxelizeCoordinates coords).map List.tail = coords := by
  have htail : (List.tail ∘ fun row : List ℤ => (0 : ℤ) :: row) = id := by
    funext r; rfl
  refine ⟨by simp [voxelizeCoordinates], ?_,
    by simp [voxelizeCoordinates, htail]⟩
  intro row hrow
  simp only [voxelizeCoordinates, List.mem_map] at hrow
  obtain ⟨r, hr, rfl⟩ := hrow
  exact ⟨by simp [h r hr], rfl⟩

/-- Witness for C8 at a concrete two-row coordinate table. -/
theorem voxelize_coordinates_padded_witness :
    (∀ row ∈ [[(5 : ℤ), 2, 7], [0, 1, 3]], row.length = 3) ∧
    ((voxelizeCoordinates [[(5 : ℤ), 2, 7], [0, 1, 3]]).length =
        ([[(5 : ℤ), 2, 7], [0, 1, 3]] : List (List ℤ)).length ∧
     (∀ row ∈ voxelizeCoordinates [[(5 : ℤ), 2, 7], [0, 1, 3]],
        row.length = 4 ∧ row.headD 1 = 0) ∧
     (voxelizeCoordinates [[(5 : ℤ), 2, 7], [0, 1, 3]]).map List.tail =
        [[(5 : ℤ), 2, 7], [0, 1, 3]]) :=
  ⟨by decide, voxelize_coordinates_padded [[(5 : ℤ), 2, 7], [0, 1, 3]] (by decide)⟩

/-! ## Farthest-point sampling lemmas (C4, C5) -/

theorem foldl_argmax_mem (f : ℕ → ℚ) :
    ∀ (l : List ℕ) (b : ℕ),
      l.foldl (fun best j => if f best < f j then j else best) b ∈ b :: l := by
  intro l
  induction l with
  | nil => intro b; simp
  | cons i is ih =>
      intro b
      simp only [List.foldl_cons]
      have h := ih (if f b < f i then i else b)
      rcases List.mem_cons.mp h with h1 | h1
      · rw [h1]
        by_cases hc : f b < f i <;> simp [hc]
      · exact List.mem_cons_of_mem _ (List.mem_cons_of_mem _ h1)

theorem argmaxBy_mem (f : ℕ → ℚ) (l : List ℕ) (c : ℕ)
    (h : argmaxBy f l = some c) : c ∈ l := by
  cases l with
  | nil => simp [argmaxBy] at h
  | cons i is =>
      simp only [argmaxBy, Option.some.injEq] at h
      have := foldl_argmax_mem f is i
      rwa [h] at this

theorem argmaxBy_isSome (f : ℕ → ℚ) (l : List ℕ) (h : l ≠ []) :
    ∃ c, argmaxBy f l = some c := by
  cases l with
  | nil => exact absurd rfl h
  | cons a l => exact ⟨_, rfl⟩

theorem fpsStep_extend (pts : List Point4) (sel : List ℕ)
    (hlen : sel.length < pts.length) :
    ∃ c, fpsStep pts sel = sel ++ [c] ∧ c ∉ sel ∧ c < pts.length := by
  have hne : (List.range pts.length).filter (fun i => decide (i ∉ sel)) ≠ [] := by
    intro hnil
    have hsub : List.range pts.length ⊆ sel := by
      intro m hm
      by_contra hms
      have hmem : m ∈ (List.range pts.length).filter (fun i => decide (i ∉ sel)) :=
        List.mem_filter.mpr ⟨hm, by simpa using hms⟩
      rw [hnil] at hmem
      exact absurd hmem (List.not_mem_nil m)
    have hle := (List.subperm_of_subset (List.nodup_range _) hsub).length_le
    rw [List.length_range] at hle
    omega
  obtain ⟨c, hc⟩ := argmaxBy_isSome (minSqDist pts sel) _ hne
  have hcmem := argmaxBy_mem _ _ _ hc
  have hcand := List.mem_filter.mp hcmem
  refine ⟨c, ?_, by simpa using hcand.2, by simpa using List.mem_range.mp hcand.1⟩
  unfold fpsStep
  rw [hc]

theorem fpsAux_invariant (pts : List Point4) :
    ∀ (n : ℕ) (sel : List ℕ),
      sel.Nodup → (∀ i ∈ sel, i < pts.length) →
      n + sel.length ≤ pts.length →
      (fpsAux pts n sel).length = n + sel.length ∧
      (fpsAux pts n sel).Nodup ∧
      (∀ i ∈ fpsAux pts n sel, i < pts.length) := by
  intro n
  induction n with
  | zero =>
      intro sel h1 h2 _
      exact ⟨(Nat.zero_add _).symm, h1, h2⟩
  | succ n ih =>
      intro sel h1 h2 hle
      have hlen : sel.length < pts.length := by omega
      obtain ⟨c, heq, hcn, hclt⟩ := fpsStep_extend pts sel hlen
      have h1' : (sel ++ [c]).Nodup := by
        rw [List.nodup_append]
        exact ⟨h1, List.nodup_singleton c,
          fun a ha hb => by simp at hb; subst hb; exact hcn ha⟩
      have h2' : ∀ i ∈ sel ++ [c], i < pts.length := by
        intro i hi
        rcases List.mem_append.mp hi with h | h
        · exact h2 i h
        · simp at h; subst h; exact hclt
      have hle' : n + (sel ++ [c]).length ≤ pts.length := by
        simp only [List.length_append, List.length_singleton]
        omega
      have hrec := ih (sel ++ [c]) h1' h2' hle'
      have hstep : fpsAux pts (n + 1) sel = fpsAux pts n (sel ++ [c]) := by
        show fpsAux pts n (fpsStep pts sel) = _
        rw [heq]
      rw [hstep]
      refine ⟨?_, hrec.2.1, hrec.2.2⟩
      rw [hrec.1]
      simp only [List.length_append, List.length_singleton]
      omega

/-- C4: for `K ≤ N` the sampler returns exactly `K` keypoints at `K`
distinct in-range indices; each keypoint is the xyz of an input point with
the auxiliary channel dropped; for `N = K` the selected indices cover every
input point. -/
theorem sample_keypoints_spec (pts : List Point4) (K : ℕ)
    (hK : K ≤ pts.length) :
    (furthestPointSample pts K).length = K ∧
    (furthestPointSample pts K).Nodup ∧
    (∀ i ∈ furthestPointSample pts K, i < pts.length) ∧
    (∀ kp ∈ sampleKeypoints pts K, ∃ p ∈ pts, kp = ⟨p.x, p.y, p.z⟩) ∧
    (sampleKeypoints pts K).length = K ∧
    (pts.length = K → ∀ m, m < K → m ∈ furthestPointSample pts K) := by
  have hbase :
      (furthestPointSample pts K).length = K ∧
      (furthestPointSample pts K).Nodup ∧
      (∀ i ∈ furthestPointSample pts K, i < pts.length) := by
    cases K with
    | zero => exact ⟨rfl, List.nodup_nil, by simp [furthestPointSample]⟩
    | succ k =>
        have h0 : (0 : ℕ) < pts.length := by omega
        have := fpsAux_invariant pts k [0] (List.nodup_singleton 0)
          (by intro i hi; simp at hi; subst hi; exact h0)
          (by simp; omega)
        refine ⟨?_, this.2.1, this.2.2⟩
        show (fpsAux pts k [0]).length = k + 1
        rw [this.1]; simp
  obtain ⟨hlen, hnd, hlt⟩ := hbase
  refine ⟨hlen, hnd, hlt, ?_, ?_, ?_⟩
  · intro kp hkp
    simp only [sampleKeypoints, List.mem_map] at hkp
    obtain ⟨i, hi, rfl⟩ := hkp
    have hilt := hlt i hi
    refine ⟨pts.getD i default, ?_, rfl⟩
    rw [List.getD_eq_getElem pts default hilt]
    exact List.getElem_mem hilt
  · simp [sampleKeypoints, hlen]
  · intro hNK m hm
    have hsub : furthestPointSample pts K ⊆ List.range K := by
      intro i hi
      exact List.mem_range.mpr (hNK ▸ hlt i hi)
    have hperm : List.Perm (furthestPointSample pts K) (List.range K) :=
      (List.subperm_of_subset hnd hsub).perm_of_length_le
        (by rw [List.length_range, hlen])
    exact hperm.mem_iff.mpr (List.mem_range.mpr hm)

/-- Witness for C4 at a 3-point cloud with `K = 3` (so also `N = K`). -/
theorem sample_keypoints_spec_witness :
    3 ≤ ([⟨0, 0, 0, 0⟩, ⟨1, 1, 0, 2⟩, ⟨5, 0, 0, 1⟩] : List Point4).length ∧
    ((furthestPointSample [⟨0, 0, 0, 0⟩, ⟨1, 1, 0, 2⟩, ⟨5, 0, 0, 1⟩] 3).length = 3 ∧
     (furthestPointSample [⟨0, 0, 0, 0⟩, ⟨1, 1, 0, 2⟩, ⟨5, 0, 0, 1⟩] 3).Nodup ∧
     (∀ i ∈ furthestPointSample [⟨0, 0, 0, 0⟩, ⟨1, 1, 0, 2⟩, ⟨5, 0, 0, 1⟩] 3,
        i < ([⟨0, 0, 0, 0⟩, ⟨1, 1, 0, 2⟩, ⟨5, 0, 0, 1⟩] : List Point4).length) ∧
     (∀ kp ∈ sampleKeypoints [⟨0, 0, 0, 0⟩, ⟨1, 1, 0, 2⟩, ⟨5, 0, 0, 1⟩] 3,
        ∃ p ∈ ([⟨0, 0, 0, 0⟩, ⟨1, 1, 0, 2⟩, ⟨5, 0, 0, 1⟩] : List Point4),
          kp = ⟨p.x, p.y, p.z⟩) ∧
     (sampleKeypoints [⟨0, 0, 0, 0⟩, ⟨1, 1, 0, 2⟩, ⟨5, 0, 0, 1⟩] 3).length = 3 ∧
     (([⟨0, 0, 0, 0⟩, ⟨1, 1, 0, 2⟩, ⟨5, 0, 0, 1⟩] : List Point4).length = 3 →
        ∀ m, m < 3 →
          m ∈ furthestPointSample [⟨0, 0, 0, 0⟩, ⟨1, 1, 0, 2⟩, ⟨5, 0, 0, 1⟩] 3)) :=
  ⟨by decide, sample_keypoints_spec [⟨0, 0, 0, 0⟩, ⟨1, 1, 0, 2⟩, ⟨5, 0, 0, 1⟩] 3 (by decide)⟩

/-- C5: when the cloud has fewer points than the requested keypoint count
(`N = 2 < K = 3`), `sample_keypoints` performs no check and raises no
error: it silently returns 3 keypoints, repeating an input point — the
keypoint set is padded, not rejected. -/
theorem sample_keypoints_no_error_when_undersized :
    sampleKeypoints [⟨0, 0, 0, 0⟩, ⟨3, 0, 0, 0⟩] 3 =
      [⟨0, 0, 0⟩, ⟨3, 0, 0⟩, ⟨0, 0, 0⟩] ∧
    (sampleKeypoints [⟨0, 0, 0, 0⟩, ⟨3, 0, 0, 0⟩] 3).length = 3 := by
  refine ⟨?_, ?_⟩ <;> decide

/-! ## Fusion lemmas (C3, C9, C10) -/

theorem bevGathererForward_row_length (v : DenseVolume) (ks : List Point3)
    (offset baseVoxelSize : Point3) (strides : List ℚ) :
    ∀ row ∈ bevGathererForward v ks offset baseVoxelSize strides,
      row.length = v.C * v.D := by
  intro row hrow
  simp only [bevGathererForward, List.mem_map] at hrow
  obtain ⟨kp, _, rfl⟩ := hrow
  simp

theorem bevGathererForward_length (v : DenseVolume) (ks : List Point3)
    (offset baseVoxelSize : Point3) (strides : List ℚ) :
    (bevGathererForward v ks offset baseVoxelSize strides).length = ks.length := by
  simp [bevGathererForward]

theorem zipWith_append_row_length :
    ∀ (t acc : List (List ℚ)) (c m : ℕ),
      (∀ r ∈ t, r.length = c) → (∀ r ∈ acc, r.length = m) →
      ∀ row ∈ List.zipWith (· ++ ·) t acc, row.length = c + m := by
  intro t
  induction t with
  | nil => intro acc c m _ _ row hrow; simp at hrow
  | cons x xs ih =>
      intro acc c m ht ha row hrow
      cases acc with
      | nil => simp at hrow
      | cons y ys =>
          simp only [List.zipWith_cons_cons] at hrow
          rcases List.mem_cons.mp hrow with h | h
          · subst h
            rw [List.length_append, ht x (List.mem_cons_self x xs),
              ha y (List.mem_cons_self y ys)]
          · exact ih ys c m (fun r hr => ht r (List.mem_cons_of_mem _ hr))
              (fun r hr => ha r (List.mem_cons_of_mem _ hr)) row h

theorem fuseFeatures_row_length :
    ∀ (tables : List (List (List ℚ))) (cs : List ℕ) (bev : List (List ℚ)) (B : ℕ),
      List.Forall₂ (fun (t : List (List ℚ)) (c : ℕ) =>
        ∀ row ∈ t, row.length = c) tables cs →
      (∀ row ∈ bev, row.length = B) →
      ∀ row ∈ fuseFeatures tables bev, row.length = cs.sum + B := by
  intro tables cs bev B hC
  induction hC with
  | nil => intro hB; simpa [fuseFeatures] using hB
  | @cons t c ts cs' hhead htail ih =>
      intro hB row hrow
      have hz : fuseFeatures (t :: ts) bev =
          List.zipWith (· ++ ·) t (fuseFeatures ts bev) := rfl
      rw [hz] at hrow
      have hlen := zipWith_append_row_length t (fuseFeatures ts bev) c
        (cs'.sum + B) hhead (ih hB) row hrow
      rw [hlen]
      simp only [List.sum_cons]
      omega

theorem fuseFeatures_length :
    ∀ (tables : List (List (List ℚ))) (bev : List (List ℚ)) (K : ℕ),
      (∀ t ∈ tables, t.length = K) → bev.length = K →
      (fuseFeatures tables bev).length = K := by
  intro tables
  induction tables with
  | nil => intro bev K _ h; exact h
  | cons t ts ih =>
      intro bev K hT hB
      have hz : fuseFeatures (t :: ts) bev =
          List.zipWith (· ++ ·) t (fuseFeatures ts bev) := rfl
      rw [hz, List.length_zipWith,
        ih bev K (fun r hr => hT r (List.mem_cons_of_mem _ hr)) hB,
        hT t (List.mem_cons_self t ts)]
      exact Nat.min_self K

/-- C3: the fused per-keypoint descriptor's channel count is the sum of the
per-scale channel counts plus the BEV contribution `C·D` (the final dense
volume flattened to `(C·D, H, W)` before sampling): every BEV row has
`C·D` channels, every fused row has `cs.sum + C·D` channels, and there is
one fused row per keypoint. -/
theorem fused_descriptor_channel_count (tables : List (List (List ℚ)))
    (cs : List ℕ) (v : DenseVolume) (ks : List Point3)
    (offset baseVoxelSize : Point3) (strides : List ℚ)
    (hC : List.Forall₂ (fun (t : List (List ℚ)) (c : ℕ) =>
        ∀ row ∈ t, row.length = c) tables cs)
    (hT : ∀ t ∈ tables, t.length = ks.length) :
    (∀ row ∈ bevGathererForward v ks offset baseVoxelSize strides,
        row.length = v.C * v.D) ∧
    (∀ row ∈ fuseFeatures tables
        (bevGathererForward v ks offset baseVoxelSize strides),
        row.length = cs.sum + v.C * v.D) ∧
    (fuseFeatures tables
        (bevGathererForward v ks offset baseVoxelSize strides)).length =
      ks.length :=
  ⟨bevGathererForward_row_length v ks offset baseVoxelSize strides,
   fuseFeatures_row_length tables cs _ (v.C * v.D) hC
     (bevGathererForward_row_length v ks offset baseVoxelSize strides),
   fuseFeatures_length tables _ ks.length hT
     (bevGathererForward_length v ks offset baseVoxelSize strides)⟩

/-- Witness for C3: two scales with 1 and 2 channels over 2 keypoints and a
1×1×1×1 volume, fused rows have 1 + 2 + 1·1 = 4 channels. -/
theorem fused_descriptor_channel_count_witness :
    (List.Forall₂ (fun (t : List (List ℚ)) (c : ℕ) =>
        ∀ row ∈ t, row.length = c)
      [[[1], [2]], [[3, 4], [5, 6]]] [1, 2] ∧
     (∀ t ∈ ([[[1], [2]], [[3, 4], [5, 6]]] : List (List (List ℚ))),
        t.length = ([⟨0, 0, 0⟩, ⟨1, 0, 0⟩] : List Point3).length)) ∧
    ((∀ row ∈ bevGathererForward ⟨1, 1, 1, 1, fun _ _ _ _ => 3⟩
        [⟨0, 0, 0⟩, ⟨1, 0, 0⟩] default default [],
        row.length = 1 * 1) ∧
     (∀ row ∈ fuseFeatures [[[1], [2]], [[3, 4], [5, 6]]]
        (bevGathererForward ⟨1, 1, 1, 1, fun _ _ _ _ => 3⟩
          [⟨0, 0, 0⟩, ⟨1, 0, 0⟩] default default []),
        row.length = [1, 2].sum + 1 * 1) ∧
     (fuseFeatures [[[1], [2]], [[3, 4], [5, 6]]]
        (bevGathererForward ⟨1, 1, 1, 1, fun _ _ _ _ => 3⟩
          [⟨0, 0, 0⟩, ⟨1, 0, 0⟩] default default [])).length =
       ([⟨0, 0, 0⟩, ⟨1, 0, 0⟩] : List Point3).length) :=
  ⟨⟨List.Forall₂.cons (by decide)
      (List.Forall₂.cons (by decide) List.Forall₂.nil), by decide⟩,
   fused_descriptor_channel_count [[[1], [2]], [[3, 4], [5, 6]]] [1, 2]
     ⟨1, 1, 1, 1, fun _ _ _ _ => 3⟩ [⟨0, 0, 0⟩, ⟨1, 0, 0⟩] default default []
     (List.Forall₂.cons (by decide)
       (List.Forall₂.cons (by decide) List.Forall₂.nil)) (by decide)⟩

/-- C9: the raw input points are prepended as a synthetic first (stride-1)
scale, split into xyz and one scalar feature channel, before the backbone's
per-scale outputs; the fused descriptor concatenates each keypoint's
per-scale features in scale order followed by the BEV features. -/
theorem forward_scale_order (pts : List Point4) (cnnOut : List ScaleData)
    (p0 : ScaleData → List (List ℚ))
    (prest : List (ScaleData → List (List ℚ))) (v : DenseVolume)
    (offset baseVoxelSize : Point3) (strides : List ℚ) (K : ℕ) :
    (pnetForward (p0 :: prest) (splitRawPoints pts :: cnnOut) =
      p0 (pts.map (fun p => ⟨p.x, p.y, p.z⟩), pts.map (fun p => [p.w])) ::
        pnetForward prest cnnOut) ∧
    (forwardFused pts cnnOut (p0 :: prest) v offset baseVoxelSize strides K =
      fuseFeatures
        (p0 (pts.map (fun p => ⟨p.x, p.y, p.z⟩), pts.map (fun p => [p.w])) ::
          pnetForward prest cnnOut)
        (bevGathererForward v (sampleKeypoints pts K) offset baseVoxelSize
          strides)) ∧
    (∀ (tables : List (List (List ℚ))) (bev : List (List ℚ)),
      (∀ t ∈ tables, t.length = bev.length) →
      ∀ k, k < bev.length →
        (fuseFeatures tables bev).getD k [] =
          (tables.map (fun t => t.getD k [])).flatten ++ bev.getD k []) := by
  refine ⟨rfl, rfl, ?_⟩
  intro tables
  induction tables with
  | nil =>
      intro bev _ k hk
      simp [fuseFeatures]
  | cons t ts ih =>
      intro bev hT k hk
      have hrest_len : (fuseFeatures ts bev).length = bev.length :=
        fuseFeatures_length ts bev bev.length
          (fun r hr => hT r (List.mem_cons_of_mem _ hr)) rfl
      have ht_len : t.length = bev.length := hT t (List.mem_cons_self t ts)
      have hk1 : k < t.length := ht_len ▸ hk
      have hk2 : k < (fuseFeatures ts bev).length := hrest_len ▸ hk
      have hz : fuseFeatures (t :: ts) bev =
          List.zipWith (· ++ ·) t (fuseFeatures ts bev) := rfl
      have hkz : k < (List.zipWith (· ++ ·) t (fuseFeatures ts bev)).length := by
        rw [List.length_zipWith]
        omega
      rw [hz, List.getD_eq_getElem _ _ hkz, List.getElem_zipWith,
        ← List.getD_eq_getElem t [] hk1,
        ← List.getD_eq_getElem (fuseFeatures ts bev) [] hk2,
        ih bev (fun r hr => hT r (List.mem_cons_of_mem _ hr)) k hk]
      simp [List.append_assoc]

/-- Witness for C9 at one backbone scale, one PointNet stub per scale,
two keypoints and one table of channel width 1. -/
theorem forward_scale_order_witness :
    (∀ t ∈ ([[[1], [2]]] : List (List (List ℚ))),
        t.length = ([[5], [6]] : List (List ℚ)).length) ∧
    0 < ([[5], [6]] : List (List ℚ)).length ∧
    (fuseFeatures [[[1], [2]]] [[5], [6]]).getD 0 [] =
      (([[[1], [2]]] : List (List (List ℚ))).map
        (fun t => t.getD 0 [])).flatten ++ ([[5], [6]] : List (List ℚ)).getD 0 [] :=
  ⟨by decide, by decide,
   (forward_scale_order [] [] (fun _ => []) [] ⟨1, 1, 1, 1, fun _ _ _ _ => 0⟩
      default default [] 0).2.2 [[[1], [2]]] [[5], [6]] (by decide) 0 (by decide)⟩

/-- C10: the forward pass takes no proposal input and draws its 25 box
proposals of 7 parameters internally: the proposal table always has 25 rows
of 7 entries whatever the draw; when the draw lies in `[0, 1)` (the range
of `torch.rand`) every proposal entry lies in `[0, 20)`; and two forward
passes over the identical input with different draws can return different
pooled outputs through the (external) ROI pooling stage. -/
theorem forward_random_proposals :
    (∀ u : Fin 25 → Fin 7 → ℚ,
      (proposalsDraw u).length = 25 ∧ ∀ row ∈ proposalsDraw u, row.length = 7) ∧
    (∀ u : Fin 25 → Fin 7 → ℚ, (∀ i j, 0 ≤ u i j ∧ u i j < 1) →
      ∀ row ∈ proposalsDraw u, ∀ q ∈ row, 0 ≤ q ∧ q < 20) ∧
    (∃ (pool : List (List ℚ) → List Point3 → List (List ℚ) → List (List ℚ))
       (u₁ u₂ : Fin 25 → Fin 7 → ℚ),
      (∀ i j, 0 ≤ u₁ i j ∧ u₁ i j < 1) ∧
      (∀ i j, 0 ≤ u₂ i j ∧ u₂ i j < 1) ∧
      forwardPooled pool [] [] [] ⟨1, 1, 1, 1, fun _ _ _ _ => 0⟩
          default default [] 0 u₁ ≠
        forwardPooled pool [] [] [] ⟨1, 1, 1, 1, fun _ _ _ _ => 0⟩
          default default [] 0 u₂) := by
  refine ⟨?_, ?_, ?_⟩
  · intro u
    constructor
    · simp [proposalsDraw]
    · intro row hrow
      simp only [proposalsDraw, List.mem_map] at hrow
      obtain ⟨i, _, rfl⟩ := hrow
      simp
  · intro u hu row hrow q hq
    simp only [proposalsDraw, List.mem_map] at hrow
    obtain ⟨i, _, rfl⟩ := hrow
    simp only [List.mem_map] at hq
    obtain ⟨j, _, rfl⟩ := hq
    obtain ⟨h0, h1⟩ := hu i j
    constructor
    · positivity
    · nlinarith
  · refine ⟨fun props _ _ => props, fun _ _ => 0, fun _ _ => 1 / 2,
      fun i j => by norm_num, fun i j => by norm_num, ?_⟩
    intro h
    have h1 := congrArg (fun l : List (List ℚ) => (l.headD []).headD (37 : ℚ)) h
    simp only [forwardPooled, proposalsDraw, List.finRange_succ_eq_map,
      List.map_cons, List.headD_cons] at h1
    norm_num at h1

/-- Witness for C10's range law at the constant draw `1/2`: all 25×7
proposal entries lie in `[0, 20)`. -/
theorem forward_random_proposals_witness :
    (∀ (i : Fin 25) (j : Fin 7),
        0 ≤ (fun _ _ => (1 / 2 : ℚ)) i j ∧ (fun _ _ => (1 / 2 : ℚ)) i j < 1) ∧
    (∀ row ∈ proposalsDraw (fun _ _ => (1 / 2 : ℚ)), ∀ q ∈ row,
        0 ≤ q ∧ q < 20) :=
  ⟨fun i j => by norm_num,
   forward_random_proposals.2.1 (fun _ _ => (1 / 2 : ℚ))
     (fun i j => by norm_num)⟩

end PVRCNN
